/-
Verification of the viewer-presence and stream-liveness core of the
aiko-server repository.

The embedding translates the in-memory presence bookkeeping
(`agentViewers : Map<string, Set<string>>`, `socketToStream :
Map<string, string>`, the `join_agent_stream` / `leave_agent_stream` /
`disconnect` socket handlers, `emitStreamCounts`, the 5-second viewer
count interval) and the 15-second heartbeat cleanup job over the
`StreamingStatus` collection into pure Lean functions.  JavaScript
`Map`s are modelled as insertion-ordered association lists with unique
keys, `Set`s as duplicate-free lists, and `io.emit(name, payload)` as
appending an `Event` to an output trace.
-/
import Mathlib

namespace Aiko

/-! ### Events

Every broadcast in the core is an `io.emit(eventName, payload)`; the
payloads that occur are the streaming-status record, the heartbeat
object `{ timestamp, isStreaming }`, the per-stream viewer count
`{ count }` and the aggregate `stream_counts` mapping. -/

/-- A `StreamingStatus` document, restricted to the fields the core
reads and writes: `agentId`, `isStreaming` and `lastHeartbeat`
(a millisecond timestamp, `Date.now()`-style). -/
structure StreamRecord where
  agentId : String
  isStreaming : Bool
  lastHeartbeat : Int
deriving DecidableEq, Repr

/-- Payload of an emitted event. -/
inductive Payload where
  | statusRecord (r : StreamRecord)
  | heartbeat (timestamp : Int) (isStreaming : Bool)
  | viewerCount (count : Nat)
  | streamCounts (counts : List (String × Nat))
deriving DecidableEq, Repr

/-- One `io.emit(name, payload)` broadcast. -/
structure Event where
  name : String
  payload : Payload
deriving DecidableEq, Repr

/-! ### The liveness monitor (heartbeat cleanup job)

Source: the `setInterval` cleanup job.  It computes
`heartbeatThreshold = Date.now() - 30 * 1000`, queries
`StreamingStatus.find({ isStreaming: true, lastHeartbeat: { $lt:
heartbeatThreshold } })`, and for each returned document sets
`isStreaming = false`, `await agent.save()`, then emits
`streaming_status_update` with the record and `` `${agentId}_heartbeat` ``
with `{ timestamp: agent.lastHeartbeat, isStreaming: false }`.
The whole body is wrapped in one `try { ... } catch` that only logs. -/

/-- `agent.isStreaming = false` on the in-memory document. -/
def demote (r : StreamRecord) : StreamRecord :=
  { r with isStreaming := false }

/-- The mongoose query of the cleanup job:
`{ isStreaming: true, lastHeartbeat: { $lt: now - 30000 } }`. -/
def findStale (store : List StreamRecord) (now : Int) : List StreamRecord :=
  store.filter (fun r => r.isStreaming && decide (r.lastHeartbeat < now - 30 * 1000))

/-- `agent.save()` after `agent.isStreaming = false`: mongoose persists the
modified path, i.e. the stored document with this `agentId` gets
`isStreaming := false` (no other field is written). -/
def markOffline (store : List StreamRecord) (id : String) : List StreamRecord :=
  store.map (fun x => if x.agentId = id then demote x else x)

/-- The `streaming_status_update` broadcast carrying the updated record. -/
def statusEv (r : StreamRecord) : Event :=
  ⟨"streaming_status_update", .statusRecord r⟩

/-- The per-stream heartbeat broadcast:
`` io.emit(`${agent.agentId}_heartbeat`, { timestamp: agent.lastHeartbeat, isStreaming: false }) ``. -/
def hbEv (r : StreamRecord) : Event :=
  ⟨r.agentId ++ "_heartbeat", .heartbeat r.lastHeartbeat false⟩

/-- The per-record loop of the cleanup job, with fault injection for
`agent.save()`: `ok id = false` means the save for that document throws.
The surrounding `try/catch` catches the exception at the sweep boundary,
so the loop stops there: earlier documents stay saved and their events
stay emitted, the failing document and all later ones are untouched. -/
def processStale (ok : String → Bool) :
    List StreamRecord → List StreamRecord → List StreamRecord × List Event
  | [], store => (store, [])
  | r :: rest, store =>
      if ok r.agentId then
        let out := processStale ok rest (markOffline store r.agentId)
        (out.1, statusEv (demote r) :: hbEv (demote r) :: out.2)
      else (store, [])

/-- One tick of the cleanup job with fault injection: `queryOk = false`
means `StreamingStatus.find` throws (the catch leaves the store and the
event trace untouched); `saveOk id = false` means `agent.save()` throws
for that document. -/
def sweepTick (queryOk : Bool) (saveOk : String → Bool)
    (store : List StreamRecord) (now : Int) : List StreamRecord × List Event :=
  if queryOk then processStale saveOk (findStale store now) store
  else (store, [])

/-- One fault-free tick of the cleanup job. -/
def sweep (store : List StreamRecord) (now : Int) : List StreamRecord × List Event :=
  sweepTick true (fun _ => true) store now

/-- An external heartbeat writer: for each `(agentId, t)` pair, the
stream owner's heartbeat sets that record's `lastHeartbeat := t` and
`isStreaming := true` (the upsert the heartbeat route performs). -/
def applyHeartbeats (hb : List (String × Int)) (store : List StreamRecord) :
    List StreamRecord :=
  store.map (fun x =>
    match hb.lookup x.agentId with
    | some t => { x with lastHeartbeat := t, isStreaming := true }
    | none => x)

/-- The cleanup job with a concurrent external writer interposed between
its query and its save loop: the query sees `store`, the heartbeats `hb`
land, then the per-record loop saves into the updated store.  The saves
are the source's unconditional `agent.save()`. -/
def sweepRace (store : List StreamRecord) (now : Int) (hb : List (String × Int)) :
    List StreamRecord × List Event :=
  processStale (fun _ => true) (findStale store now) (applyHeartbeats hb store)

/-- First stored document with the given `agentId`. -/
def lookupRecord : List StreamRecord → String → Option StreamRecord
  | [], _ => none
  | r :: t, id => if r.agentId = id then some r else lookupRecord t id

/-- A run of successive cleanup ticks (each 15 s apart in production);
each element gives that tick's fault injection and its `Date.now()`. -/
def runTicks : List (Bool × (String → Bool) × Int) → List StreamRecord →
    List StreamRecord × List Event
  | [], store => (store, [])
  | (q, ok, now) :: rest, store =>
      let out := sweepTick q ok store now
      let out' := runTicks rest out.1
      (out'.1, out.2 ++ out'.2)

/-! ### The presence registry

Source: the module-level state
`const agentViewers = new Map<string, Set<string>>()` and
`const socketToStream = new Map<string, string>()`, mutated by the
`join_agent_stream`, `leave_agent_stream` and `disconnect` socket
handlers, read by `emitStreamCounts`, the `/viewers` endpoint and the
5-second viewer-count interval.  A JavaScript `Map` is an
insertion-ordered association list with unique keys (`set` overwrites
in place, otherwise appends; `delete` removes the entry); a `Set` is a
duplicate-free insertion-ordered list. -/

/-- `Map.prototype.get`. -/
def getEntry {β : Type} : List (String × β) → String → Option β
  | [], _ => none
  | (k', v) :: t, k => if k' = k then some v else getEntry t k

/-- `Map.prototype.set`: overwrite the entry in place if the key is
present, else append. -/
def setEntry {β : Type} : List (String × β) → String → β → List (String × β)
  | [], k, v => [(k, v)]
  | (k', v') :: t, k, v =>
      if k' = k then (k, v) :: t else (k', v') :: setEntry t k v

/-- `Map.prototype.delete`. -/
def delEntry {β : Type} (m : List (String × β)) (k : String) : List (String × β) :=
  m.filter (fun p => p.1 ≠ k)

/-- `map.get(k)?.f(...)` on a value in place: rewrite the value stored
under `k` when the key is present, else do nothing. -/
def updateValue {β : Type} (m : List (String × β)) (k : String) (f : β → β) :
    List (String × β) :=
  m.map (fun p => if p.1 = k then (k, f p.2) else p)

/-- `Set.prototype.delete sid`. -/
def setDel (vs : List String) (sid : String) : List String :=
  vs.filter (fun x => x ≠ sid)

/-- `Set.prototype.add sid`. -/
def setAdd (vs : List String) (sid : String) : List String :=
  if sid ∈ vs then vs else vs ++ [sid]

/-- The two coupled presence maps. -/
structure Presence where
  socketToStream : List (String × String)
  agentViewers : List (String × List String)
deriving DecidableEq, Repr

/-- The empty registry (module initialisation). -/
def Presence.init : Presence := ⟨[], []⟩

/-- `agentViewers.get(agentId)?.size || 0` (the `/viewers` endpoint and
the leave handler's count). -/
def viewerCount (st : Presence) (agentId : String) : Nat :=
  match getEntry st.agentViewers agentId with
  | some vs => vs.length
  | none => 0

/-- The snapshot `emitStreamCounts` builds:
`Object.fromEntries(Array.from(agentViewers.entries()).map(([agentId, viewers]) => [agentId, viewers.size]))`. -/
def allCounts (st : Presence) : List (String × Nat) :=
  st.agentViewers.map (fun p => (p.1, p.2.length))

/-- `emitStreamCounts()`: one `io.emit('stream_counts', streamCounts)`
aggregate broadcast to all connections. -/
def streamCountsEv (st : Presence) : Event :=
  ⟨"stream_counts", .streamCounts (allCounts st)⟩

/-- The `join_agent_stream` handler: `if (previousStream)` is a
JavaScript truthiness test, true only when `socketToStream` holds a
non-empty string for this socket — then the socket is dropped from that
stream's set (entry kept even if emptied); when the stored id is the
falsy empty string, or absent, the removal is skipped.  Then point
`socketToStream` at the new stream, create the new stream's set if
absent, add the socket, and `emitStreamCounts()`. -/
def join (st : Presence) (sid agentId : String) : Presence × List Event :=
  let av1 :=
    match getEntry st.socketToStream sid with
    | some prev =>
        if prev = "" then st.agentViewers
        else updateValue st.agentViewers prev (fun vs => setDel vs sid)
    | none => st.agentViewers
  let sts := setEntry st.socketToStream sid agentId
  let av2 := if (getEntry av1 agentId).isSome then av1 else setEntry av1 agentId []
  let av3 := updateValue av2 agentId (fun vs => setAdd vs sid)
  let st' : Presence := ⟨sts, av3⟩
  (st', [streamCountsEv st'])

/-- The `leave_agent_stream` handler: drop the socket from the given
stream's set, emit that stream's `` `${agentId}_viewer_count` `` with
the new size, and delete the entry when the size reached zero.
`socketToStream` is not touched. -/
def leave (st : Presence) (sid agentId : String) : Presence × List Event :=
  let av1 := updateValue st.agentViewers agentId (fun vs => setDel vs sid)
  let cnt :=
    match getEntry av1 agentId with
    | some vs => vs.length
    | none => 0
  let av2 := if cnt = 0 then delEntry av1 agentId else av1
  (⟨st.socketToStream, av2⟩, [⟨agentId ++ "_viewer_count", .viewerCount cnt⟩])

/-- The `disconnect` handler: `if (agentId)` is a JavaScript truthiness
test, true only when `socketToStream` holds a non-empty string for this
socket — then the socket is dropped from that stream's set (entry kept
even if emptied), its `socketToStream` entry is deleted and
`emitStreamCounts()` runs; when the stored id is the falsy empty
string, or absent, the handler does nothing. -/
def disconnect (st : Presence) (sid : String) : Presence × List Event :=
  match getEntry st.socketToStream sid with
  | some agentId =>
      if agentId = "" then (st, [])
      else
        let st' : Presence :=
          ⟨delEntry st.socketToStream sid,
           updateValue st.agentViewers agentId (fun vs => setDel vs sid)⟩
        (st', [streamCountsEv st'])
  | none => (st, [])

/-- The 5-second viewer-count interval: for each tracked stream,
`` io.emit(`${agentId}_viewer_count`, { count: viewers.size }) ``. -/
def countTick (st : Presence) : List Event :=
  st.agentViewers.map (fun p => ⟨p.1 ++ "_viewer_count", .viewerCount p.2.length⟩)

/-- One connection event. -/
inductive Op where
  | join (sid agentId : String)
  | leave (sid agentId : String)
  | disconnect (sid : String)
deriving DecidableEq, Repr

/-- State after one connection event. -/
def applyOp (st : Presence) : Op → Presence
  | .join sid agentId => (join st sid agentId).1
  | .leave sid agentId => (leave st sid agentId).1
  | .disconnect sid => (disconnect st sid).1

/-- Registry state after a sequence of connection events, from module
initialisation. -/
def run (ops : List Op) : Presence :=
  ops.foldl applyOp Presence.init

/-- The invariant the handler code maintains: `agentViewers` has unique
keys, its sets are duplicate-free, and every socket in the set of a
stream with a non-empty id is mapped to that stream by
`socketToStream`.  (Membership in the empty-string stream's set is
unconstrained: the truthiness guards of `join_agent_stream` and the
disconnect handler never remove a socket from it.) -/
def Wf (st : Presence) : Prop :=
  (st.agentViewers.map Prod.fst).Nodup ∧
  (∀ p ∈ st.agentViewers, p.2.Nodup) ∧
  (∀ p ∈ st.agentViewers, p.1 ≠ "" →
    ∀ c ∈ p.2, getEntry st.socketToStream c = some p.1)

/-- Does the event address the heartbeat channel of the given stream? -/
def isHeartbeatEvFor (id : String) (e : Event) : Bool :=
  e.name = id ++ "_heartbeat"

/-- Is the event a global `streaming_status_update` carrying the record
of the given stream? -/
def isStatusEvFor (id : String) (e : Event) : Bool :=
  e.name = "streaming_status_update" &&
    match e.payload with
    | .statusRecord r => r.agentId = id
    | _ => false

/-- Three connections joining stream A and two joining stream B. -/
def fiveJoins : List Op :=
  [.join "c1" "A", .join "c2" "A", .join "c3" "A", .join "c4" "B", .join "c5" "B"]

/-- All five connections disconnecting. -/
def fiveDiscs : List Op :=
  [.disconnect "c1", .disconnect "c2", .disconnect "c3", .disconnect "c4", .disconnect "c5"]

/-! ### Association-list and set lemmas -/


theorem getEntry_setEntry {β : Type} (m : List (String × β)) (k k' : String) (v : β) :
    getEntry (setEntry m k v) k' = if k' = k then some v else getEntry m k' := by
  induction m with
  | nil =>
      by_cases h : k' = k
      · subst h; simp [setEntry, getEntry]
      · have h2 : ¬(k = k') := fun e => h e.symm
        simp [setEntry, getEntry, h, h2]
  | cons p t ih =>
      obtain ⟨k₀, v₀⟩ := p
      by_cases h0 : k₀ = k
      · subst h0
        by_cases h : k' = k₀
        · subst h; simp [setEntry, getEntry]
        · have h2 : ¬(k₀ = k') := fun e => h e.symm
          simp [setEntry, getEntry, h, h2]
      · by_cases h : k' = k₀
        · subst h
          have h2 : ¬(k' = k) := fun e => h0 (by simp [e])
          simp [setEntry, getEntry, h0, h2]
        · have h2 : ¬(k₀ = k') := fun e => h e.symm
          simp [setEntry, getEntry, h0, h2, ih]

theorem getEntry_delEntry {β : Type} (m : List (String × β)) (k k' : String) :
    getEntry (delEntry m k) k' = if k' = k then none else getEntry m k' := by
  induction m with
  | nil => simp [delEntry, getEntry]
  | cons p t ih =>
      obtain ⟨k₀, v₀⟩ := p
      by_cases h0 : k₀ = k
      · subst h0
        by_cases h : k' = k₀
        · subst h
          simpa [delEntry, List.filter_cons, getEntry] using ih
        · have h2 : ¬(k₀ = k') := fun e => h e.symm
          simpa [delEntry, List.filter_cons, getEntry, h, h2] using ih
      · by_cases h : k' = k₀
        · subst h
          have h2 : ¬(k' = k) := fun e => h0 (by simp [e])
          simp [delEntry, List.filter_cons, getEntry, h0, h2]
        · have h2 : ¬(k₀ = k') := fun e => h e.symm
          simpa [delEntry, List.filter_cons, getEntry, h0, h2] using ih

theorem getEntry_updateValue {β : Type} (m : List (String × β)) (k k' : String)
    (f : β → β) :
    getEntry (updateValue m k f) k' =
      if k' = k then (getEntry m k).map f else getEntry m k' := by
  induction m with
  | nil => simp [updateValue, getEntry]
  | cons p t ih =>
      obtain ⟨k₀, v₀⟩ := p
      have hstep : updateValue ((k₀, v₀) :: t) k f =
          (if k₀ = k then (k, f v₀) else (k₀, v₀)) :: updateValue t k f := by
        simp [updateValue]
      by_cases h0 : k₀ = k
      · subst h0
        rw [hstep, if_pos rfl]
        by_cases h : k' = k₀
        · subst h
          simp [getEntry]
        · have h2 : ¬(k₀ = k') := fun e => h e.symm
          simp [getEntry, h, h2, ih]
      · rw [hstep, if_neg h0]
        by_cases h : k' = k₀
        · subst h
          have h2 : ¬(k' = k) := fun e => h0 (by simp [e])
          simp [getEntry, h2]
        · have h2 : ¬(k₀ = k') := fun e => h e.symm
          simp [getEntry, h0, h2, ih]

theorem keys_updateValue {β : Type} (m : List (String × β)) (k : String) (f : β → β) :
    (updateValue m k f).map Prod.fst = m.map Prod.fst := by
  induction m with
  | nil => rfl
  | cons p t ih =>
      obtain ⟨k₀, v₀⟩ := p
      by_cases h0 : k₀ = k
      · subst h0
        simpa [updateValue] using ih
      · simpa [updateValue, h0] using ih

theorem mem_updateValue {β : Type} {m : List (String × β)} {k : String} {f : β → β}
    {p : String × β} (hp : p ∈ updateValue m k f) :
    (∃ v, (k, v) ∈ m ∧ p = (k, f v)) ∨ (p ∈ m ∧ p.1 ≠ k) := by
  rw [updateValue, List.mem_map] at hp
  obtain ⟨q, hq, hpq⟩ := hp
  obtain ⟨qk, qv⟩ := q
  by_cases h : qk = k
  · subst h
    simp at hpq
    exact Or.inl ⟨qv, hq, hpq.symm⟩
  · simp [h] at hpq
    subst hpq
    exact Or.inr ⟨hq, h⟩

theorem getEntry_eq_none_iff {β : Type} (m : List (String × β)) (k : String) :
    getEntry m k = none ↔ k ∉ m.map Prod.fst := by
  induction m with
  | nil => simp [getEntry]
  | cons p t ih =>
      obtain ⟨k₀, v₀⟩ := p
      by_cases h : k₀ = k
      · subst h
        simp [getEntry]
      · have h2 : ¬(k = k₀) := fun e => h e.symm
        simp [getEntry, h, h2, ih]

theorem setEntry_of_not_mem {β : Type} {m : List (String × β)} {k : String} (v : β)
    (h : getEntry m k = none) : setEntry m k v = m ++ [(k, v)] := by
  induction m with
  | nil => rfl
  | cons p t ih =>
      obtain ⟨k₀, v₀⟩ := p
      by_cases h0 : k₀ = k
      · simp [getEntry, h0] at h
      · simp [getEntry, h0] at h
        simp [setEntry, h0, ih h]

theorem getEntry_mem {β : Type} {m : List (String × β)} {k : String} {v : β}
    (h : getEntry m k = some v) : (k, v) ∈ m := by
  induction m with
  | nil => simp [getEntry] at h
  | cons p t ih =>
      obtain ⟨k₀, v₀⟩ := p
      by_cases h0 : k₀ = k
      · subst h0
        simp [getEntry] at h
        simp [h]
      · simp [getEntry, h0] at h
        exact List.mem_cons_of_mem _ (ih h)

theorem mem_getEntry_isSome {β : Type} {m : List (String × β)} {k : String} {v : β}
    (h : (k, v) ∈ m) : (getEntry m k).isSome := by
  induction m with
  | nil => simp at h
  | cons p t ih =>
      obtain ⟨k₀, v₀⟩ := p
      by_cases h0 : k₀ = k
      · simp [getEntry, h0]
      · rcases List.mem_cons.mp h with h1 | h1
        · rw [Prod.mk.injEq] at h1
          exact absurd h1.1.symm h0
        · simpa [getEntry, h0] using ih h1

theorem mem_getEntry_nodup {β : Type} {m : List (String × β)} {k : String} {v : β}
    (hnd : (m.map Prod.fst).Nodup) (h : (k, v) ∈ m) : getEntry m k = some v := by
  induction m with
  | nil => simp at h
  | cons p t ih =>
      obtain ⟨k₀, v₀⟩ := p
      rw [List.map_cons, List.nodup_cons] at hnd
      rcases List.mem_cons.mp h with h1 | h1
      · rw [Prod.mk.injEq] at h1
        simp [getEntry, h1.1, h1.2]
      · have hk : ¬(k₀ = k) := by
          intro he
          subst he
          exact hnd.1 (List.mem_map.mpr ⟨(k₀, v), h1, rfl⟩)
        simp [getEntry, hk, ih hnd.2 h1]

theorem mem_setDel {vs : List String} {sid c : String} :
    c ∈ setDel vs sid ↔ c ∈ vs ∧ c ≠ sid := by
  simp [setDel, List.mem_filter]

theorem nodup_setDel {vs : List String} (h : vs.Nodup) (sid : String) :
    (setDel vs sid).Nodup :=
  h.filter _

theorem setDel_of_not_mem {vs : List String} {sid : String} (h : sid ∉ vs) :
    setDel vs sid = vs := by
  rw [setDel, List.filter_eq_self]
  intro a ha
  simp only [decide_eq_true_eq]
  intro he
  exact h (he ▸ ha)

theorem length_setDel_of_mem {vs : List String} {sid : String}
    (hnd : vs.Nodup) (h : sid ∈ vs) : (setDel vs sid).length = vs.length - 1 := by
  induction vs with
  | nil => simp at h
  | cons x t ih =>
      rw [List.nodup_cons] at hnd
      by_cases hx : x = sid
      · subst hx
        rw [show setDel (x :: t) x = setDel t x by simp [setDel, List.filter_cons],
          setDel_of_not_mem hnd.1]
        simp
      · have hmem : sid ∈ t := by
          rcases List.mem_cons.mp h with h1 | h1
          · exact absurd h1.symm hx
          · exact h1
        have ht : 1 ≤ t.length := List.length_pos.mpr (List.ne_nil_of_mem hmem)
        have hstep : setDel (x :: t) sid = x :: setDel t sid := by
          simp [setDel, List.filter_cons, hx]
        rw [hstep]
        simp only [List.length_cons]
        rw [ih hnd.2 hmem]
        omega

theorem mem_setAdd {vs : List String} {sid c : String} :
    c ∈ setAdd vs sid ↔ c ∈ vs ∨ c = sid := by
  by_cases h : sid ∈ vs
  · simp only [setAdd, if_pos h]
    constructor
    · exact Or.inl
    · rintro (h1 | h1)
      · exact h1
      · exact h1 ▸ h
  · simp [setAdd, h]

theorem nodup_setAdd {vs : List String} (h : vs.Nodup) (sid : String) :
    (setAdd vs sid).Nodup := by
  by_cases hm : sid ∈ vs
  · simpa [setAdd, hm] using h
  · rw [setAdd, if_neg hm]
    exact List.nodup_append.mpr ⟨h, List.nodup_singleton _, by simpa using hm⟩

theorem length_setAdd_of_not_mem {vs : List String} {sid : String} (h : sid ∉ vs) :
    (setAdd vs sid).length = vs.length + 1 := by
  simp [setAdd, h]

theorem self_mem_setAdd (vs : List String) (sid : String) : sid ∈ setAdd vs sid := by
  by_cases h : sid ∈ vs <;> simp [setAdd, h]
/-! ### Preservation of the registry invariant -/

theorem Wf_init : Wf Presence.init := by
  refine ⟨List.nodup_nil, ?_, ?_⟩ <;> intro p hp <;> simp [Presence.init] at hp

theorem join_fst_eq (st : Presence) (c s : String) (av1 : List (String × List String))
    (h : av1 = match getEntry st.socketToStream c with
      | some prev =>
          if prev = "" then st.agentViewers
          else updateValue st.agentViewers prev (fun vs => setDel vs c)
      | none => st.agentViewers) :
    (join st c s).1 = ⟨setEntry st.socketToStream c s,
      updateValue (if (getEntry av1 s).isSome then av1 else setEntry av1 s []) s
        (fun vs => setAdd vs c)⟩ := by
  subst h
  rfl

theorem Wf_join_aux (old : Presence) (av1 : List (String × List String)) (c s : String)
    (hkeys : av1.map Prod.fst = old.agentViewers.map Prod.fst)
    (hA1 : ∀ p ∈ av1, p.2.Nodup)
    (hA2 : ∀ p ∈ av1, p.1 ≠ "" → ∀ c' ∈ p.2, getEntry old.socketToStream c' = some p.1)
    (hA3 : ∀ p ∈ av1, p.1 ≠ "" → c ∉ p.2)
    (w1 : (old.agentViewers.map Prod.fst).Nodup) :
    Wf ⟨setEntry old.socketToStream c s,
      updateValue (if (getEntry av1 s).isSome then av1 else setEntry av1 s []) s
        (fun vs => setAdd vs c)⟩ := by
  have h1 : (av1.map Prod.fst).Nodup := hkeys ▸ w1
  by_cases hsome : (getEntry av1 s).isSome
  · rw [if_pos hsome]
    refine ⟨?_, ?_, ?_⟩ <;> dsimp only
    · simpa [keys_updateValue] using h1
    · intro p hp
      rcases mem_updateValue hp with ⟨v, hv, rfl⟩ | ⟨hp', _⟩
      · exact nodup_setAdd (hA1 _ hv) c
      · exact hA1 _ hp'
    · intro p hp hpne c' hc'
      simp only [getEntry_setEntry]
      rcases mem_updateValue hp with ⟨v, hv, rfl⟩ | ⟨hp', hps⟩
      · rcases mem_setAdd.mp hc' with hcv | hcc
        · have hne : ¬(c' = c) := fun e => hA3 _ hv hpne (e ▸ hcv)
          rw [if_neg hne]
          exact hA2 _ hv hpne _ hcv
        · rw [if_pos hcc]
      · have hne : ¬(c' = c) := fun e => hA3 _ hp' hpne (e ▸ hc')
        rw [if_neg hne]
        exact hA2 _ hp' hpne _ hc'
  · have hnone : getEntry av1 s = none := by
      cases he : getEntry av1 s with
      | none => rfl
      | some v => rw [he] at hsome; simp at hsome
    rw [if_neg hsome, setEntry_of_not_mem _ hnone]
    have hsnot : s ∉ av1.map Prod.fst := (getEntry_eq_none_iff av1 s).mp hnone
    have hmem2 : ∀ p ∈ av1 ++ [(s, ([] : List String))],
        p ∈ av1 ∨ p = (s, ([] : List String)) := by
      intro p hp
      rcases List.mem_append.mp hp with hp' | hp'
      · exact Or.inl hp'
      · exact Or.inr (by simpa using hp')
    refine ⟨?_, ?_, ?_⟩ <;> dsimp only
    · rw [keys_updateValue, List.map_append]
      refine List.nodup_append.mpr ⟨h1, List.nodup_singleton _, ?_⟩
      simpa using fun hs => hsnot hs
    · intro p hp
      rcases mem_updateValue hp with ⟨v, hv, rfl⟩ | ⟨hp', _⟩
      · rcases hmem2 _ hv with hv' | hv'
        · exact nodup_setAdd (hA1 _ hv') c
        · rw [Prod.mk.injEq] at hv'
          rw [hv'.2]
          exact nodup_setAdd List.nodup_nil c
      · rcases hmem2 _ hp' with hp'' | hp''
        · exact hA1 _ hp''
        · rw [hp'']
          exact List.nodup_nil
    · intro p hp hpne c' hc'
      simp only [getEntry_setEntry]
      rcases mem_updateValue hp with ⟨v, hv, rfl⟩ | ⟨hp', hps⟩
      · rcases mem_setAdd.mp hc' with hcv | hcc
        · rcases hmem2 _ hv with hv' | hv'
          · have hne : ¬(c' = c) := fun e => hA3 _ hv' hpne (e ▸ hcv)
            rw [if_neg hne]
            exact hA2 _ hv' hpne _ hcv
          · rw [Prod.mk.injEq] at hv'
            rw [hv'.2] at hcv
            simp at hcv
        · rw [if_pos hcc]
      · rcases hmem2 _ hp' with hp'' | hp''
        · have hne : ¬(c' = c) := fun e => hA3 _ hp'' hpne (e ▸ hc')
          rw [if_neg hne]
          exact hA2 _ hp'' hpne _ hc'
        · rw [hp''] at hc'
          simp at hc'

theorem Wf_join (st : Presence) (c s : String) (h : Wf st) : Wf ((join st c s).1) := by
  obtain ⟨w1, w2, w3⟩ := h
  cases hprev : getEntry st.socketToStream c with
  | none =>
      rw [join_fst_eq st c s st.agentViewers (by rw [hprev])]
      refine Wf_join_aux st st.agentViewers c s rfl w2 w3 ?_ w1
      intro p hp hpne hc
      have hm := w3 p hp hpne c hc
      rw [hm] at hprev
      cases hprev
  | some pv =>
      by_cases hpv : pv = ""
      · rw [join_fst_eq st c s st.agentViewers (by simp [hprev, hpv])]
        refine Wf_join_aux st st.agentViewers c s rfl w2 w3 ?_ w1
        intro p hp hpne hc
        have hm := w3 p hp hpne c hc
        rw [hm] at hprev
        exact hpne ((Option.some_inj.mp hprev).trans hpv)
      · rw [join_fst_eq st c s (updateValue st.agentViewers pv (fun vs => setDel vs c))
          (by simp [hprev, hpv])]
        refine Wf_join_aux st _ c s (keys_updateValue _ _ _) ?_ ?_ ?_ w1
        · intro p hp
          rcases mem_updateValue hp with ⟨v, hv, rfl⟩ | ⟨hp', _⟩
          · exact nodup_setDel (w2 _ hv) c
          · exact w2 _ hp'
        · intro p hp hpne c' hc'
          rcases mem_updateValue hp with ⟨v, hv, rfl⟩ | ⟨hp', _⟩
          · exact w3 _ hv hpne _ ((mem_setDel.mp hc').1)
          · exact w3 _ hp' hpne _ hc'
        · intro p hp hpne hc
          rcases mem_updateValue hp with ⟨v, hv, rfl⟩ | ⟨hp', hps⟩
          · exact (mem_setDel.mp hc).2 rfl
          · have hm := w3 _ hp' hpne _ hc
            rw [hprev] at hm
            rw [Option.some_inj] at hm
            exact hps hm.symm

theorem leave_fst_eq (st : Presence) (c s : String) :
    (leave st c s).1 = ⟨st.socketToStream,
      if (match getEntry (updateValue st.agentViewers s (fun vs => setDel vs c)) s with
          | some vs => vs.length
          | none => 0) = 0
      then delEntry (updateValue st.agentViewers s (fun vs => setDel vs c)) s
      else updateValue st.agentViewers s (fun vs => setDel vs c)⟩ :=
  rfl

theorem Wf_leave (st : Presence) (c s : String) (h : Wf st) : Wf ((leave st c s).1) := by
  obtain ⟨w1, w2, w3⟩ := h
  have hav1k : (updateValue st.agentViewers s (fun vs => setDel vs c)).map Prod.fst
      = st.agentViewers.map Prod.fst := keys_updateValue _ _ _
  have hav1nd : ((updateValue st.agentViewers s (fun vs => setDel vs c)).map Prod.fst).Nodup := by
    rw [hav1k]
    exact w1
  have hav1n : ∀ p ∈ updateValue st.agentViewers s (fun vs => setDel vs c), p.2.Nodup := by
    intro p hp
    rcases mem_updateValue hp with ⟨v, hv, rfl⟩ | ⟨hp', _⟩
    · exact nodup_setDel (w2 _ hv) c
    · exact w2 _ hp'
  have hav1m : ∀ p ∈ updateValue st.agentViewers s (fun vs => setDel vs c), p.1 ≠ "" →
      ∀ c' ∈ p.2, getEntry st.socketToStream c' = some p.1 := by
    intro p hp hpne c' hc'
    rcases mem_updateValue hp with ⟨v, hv, rfl⟩ | ⟨hp', _⟩
    · exact w3 _ hv hpne _ (mem_setDel.mp hc').1
    · exact w3 _ hp' hpne _ hc'
  rw [leave_fst_eq]
  by_cases hcnt :
      (match getEntry (updateValue st.agentViewers s (fun vs => setDel vs c)) s with
        | some vs => vs.length
        | none => 0) = 0
  · rw [if_pos hcnt]
    refine ⟨?_, ?_, ?_⟩ <;> dsimp only
    · have hsub : List.Sublist
          ((delEntry (updateValue st.agentViewers s (fun vs => setDel vs c)) s).map Prod.fst)
          ((updateValue st.agentViewers s (fun vs => setDel vs c)).map Prod.fst) :=
        (List.filter_sublist _).map _
      exact List.Sublist.nodup hsub hav1nd
    · intro p hp
      exact hav1n _ (List.mem_of_mem_filter hp)
    · intro p hp hpne c' hc'
      exact hav1m _ (List.mem_of_mem_filter hp) hpne _ hc'
  · rw [if_neg hcnt]
    exact ⟨hav1nd, hav1n, hav1m⟩

theorem Wf_disconnect (st : Presence) (c : String) (h : Wf st) : Wf ((disconnect st c).1) := by
  obtain ⟨w1, w2, w3⟩ := h
  cases hprev : getEntry st.socketToStream c with
  | none =>
      have hd : (disconnect st c).1 = st := by
        simp [disconnect, hprev]
      rw [hd]
      exact ⟨w1, w2, w3⟩
  | some a =>
      by_cases ha : a = ""
      · have hd : (disconnect st c).1 = st := by
          simp [disconnect, hprev, ha]
        rw [hd]
        exact ⟨w1, w2, w3⟩
      · have hd : (disconnect st c).1 = ⟨delEntry st.socketToStream c,
            updateValue st.agentViewers a (fun vs => setDel vs c)⟩ := by
          simp [disconnect, hprev, ha]
        rw [hd]
        refine ⟨?_, ?_, ?_⟩ <;> dsimp only
        · rw [keys_updateValue]
          exact w1
        · intro p hp
          rcases mem_updateValue hp with ⟨v, hv, rfl⟩ | ⟨hp', _⟩
          · exact nodup_setDel (w2 _ hv) c
          · exact w2 _ hp'
        · intro p hp hpne c' hc'
          rw [getEntry_delEntry]
          rcases mem_updateValue hp with ⟨v, hv, rfl⟩ | ⟨hp', hps⟩
          · have hne : ¬(c' = c) := (mem_setDel.mp hc').2
            rw [if_neg hne]
            exact w3 _ hv hpne _ (mem_setDel.mp hc').1
          · have hne : ¬(c' = c) := by
              intro he
              subst he
              have hw := w3 _ hp' hpne _ hc'
              rw [hprev] at hw
              exact hps (Option.some_inj.mp hw).symm
            rw [if_neg hne]
            exact w3 _ hp' hpne _ hc'

theorem Wf_applyOp (st : Presence) (op : Op) (h : Wf st) : Wf (applyOp st op) := by
  cases op with
  | join sid agentId => exact Wf_join st sid agentId h
  | leave sid agentId => exact Wf_leave st sid agentId h
  | disconnect sid => exact Wf_disconnect st sid h

theorem Wf_foldl (l : List Op) (st : Presence) (h : Wf st) : Wf (l.foldl applyOp st) := by
  induction l generalizing st with
  | nil => exact h
  | cons op t ih => exact ih _ (Wf_applyOp st op h)

theorem Wf_run (ops : List Op) : Wf (run ops) :=
  Wf_foldl ops Presence.init Wf_init

/-! ### Shared characterisations of the handlers -/

theorem join_socketToStream (st : Presence) (c s : String) :
    ((join st c s).1).socketToStream = setEntry st.socketToStream c s := by
  cases hprev : getEntry st.socketToStream c with
  | none => rw [join_fst_eq st c s st.agentViewers (by rw [hprev])]
  | some pv =>
      by_cases hpv : pv = ""
      · rw [join_fst_eq st c s st.agentViewers (by simp [hprev, hpv])]
      · rw [join_fst_eq st c s (updateValue st.agentViewers pv (fun vs => setDel vs c))
          (by simp [hprev, hpv])]

theorem getEntry_ensure_add (av1 : List (String × List String)) (c s : String) :
    ∃ w, getEntry (updateValue
        (if (getEntry av1 s).isSome then av1 else setEntry av1 s []) s
        (fun vs => setAdd vs c)) s = some (setAdd w c) := by
  by_cases hin : (getEntry av1 s).isSome
  · rw [if_pos hin, getEntry_updateValue, if_pos rfl]
    obtain ⟨v, hv⟩ := Option.isSome_iff_exists.mp hin
    exact ⟨v, by rw [hv]; rfl⟩
  · rw [if_neg hin, getEntry_updateValue, if_pos rfl, getEntry_setEntry, if_pos rfl]
    exact ⟨[], rfl⟩

theorem join_agentViewers_self (st : Presence) (c s : String) :
    ∃ w, getEntry ((join st c s).1).agentViewers s = some (setAdd w c) := by
  cases hprev : getEntry st.socketToStream c with
  | none =>
      rw [join_fst_eq st c s st.agentViewers (by rw [hprev])]
      exact getEntry_ensure_add st.agentViewers c s
  | some pv =>
      by_cases hpv : pv = ""
      · rw [join_fst_eq st c s st.agentViewers (by simp [hprev, hpv])]
        exact getEntry_ensure_add st.agentViewers c s
      · rw [join_fst_eq st c s (updateValue st.agentViewers pv (fun vs => setDel vs c))
          (by simp [hprev, hpv])]
        exact getEntry_ensure_add _ c s

/-! ### Claim C2 -/

/-- C2 (counterexample): after `join c A; join c B; leave c B`,
`socketToStream` still maps `c` to `B` although `B` has no entry in
`agentViewers` (so `c` is in no stream's set), and the entry for `A`
is a dangling empty set — both halves of the claimed invariant fail. -/
theorem presence_invariant_counterexample :
    getEntry (run [Op.join "c" "A", Op.join "c" "B", Op.leave "c" "B"]).socketToStream "c"
        = some "B" ∧
    getEntry (run [Op.join "c" "A", Op.join "c" "B", Op.leave "c" "B"]).agentViewers "B"
        = none ∧
    getEntry (run [Op.join "c" "A", Op.join "c" "B", Op.leave "c" "B"]).agentViewers "A"
        = some [] := by
  refine ⟨?_, ?_, ?_⟩ <;> decide

/-- C2 (amended): after any sequence of join/leave/disconnect calls,
every connection in the set of a stream with a non-empty id is mapped
to that stream by `connectionToStream`, and hence no connection is in
two different non-empty-id streams' sets.  (The converse direction and
the no-empty-entry part of the original claim are false: `leave` does
not update `connectionToStream`, and `join`/`disconnect` leave emptied
entries.  Membership in the empty-string stream's set is exempt: the
handlers' JavaScript truthiness guards never remove a socket from it.) -/
theorem presence_membership_implies_mapping (ops : List Op) :
    (∀ p ∈ (run ops).agentViewers, p.1 ≠ "" → ∀ c ∈ p.2,
      getEntry (run ops).socketToStream c = some p.1) ∧
    (∀ p q, p ∈ (run ops).agentViewers → q ∈ (run ops).agentViewers →
      p.1 ≠ "" → q.1 ≠ "" → ∀ c, c ∈ p.2 → c ∈ q.2 → p.1 = q.1) := by
  obtain ⟨w1, w2, w3⟩ := Wf_run ops
  refine ⟨w3, ?_⟩
  intro p q hp hq hpne hqne c hcp hcq
  have h1 := w3 p hp hpne c hcp
  have h2 := w3 q hq hqne c hcq
  rw [h1] at h2
  exact Option.some_inj.mp h2

/-- C2 witness: a concrete instance of the amended invariant. -/
theorem presence_membership_implies_mapping_witness :
    getEntry (run [Op.join "c" "A"]).socketToStream "c" = some "A" :=
  (presence_membership_implies_mapping [Op.join "c" "A"]).1 ("A", ["c"]) (by decide)
    (by decide) "c" (by decide)

/-! ### Claim C9 -/

/-- C9: `leave` returns `socketToStream` unchanged (it only mutates the
stream's connection set) and `join` never removes a `socketToStream`
entry, so a mapping entry can only disappear through `disconnect`;
`disconnect` deletes its connection's entry when the stored stream id
is truthy (non-empty), and — by its `if (agentId)` guard — leaves the
whole state untouched when the stored id is the falsy empty string. -/
theorem leave_socketToStream_frame (st : Presence) (c s c0 s0 : String) :
    ((leave st c s).1).socketToStream = st.socketToStream ∧
    (∀ x r, getEntry st.socketToStream x = some r →
      ∃ r', getEntry ((join st c0 s0).1).socketToStream x = some r') ∧
    (∀ a, getEntry st.socketToStream c = some a → a ≠ "" →
      getEntry ((disconnect st c).1).socketToStream c = none) ∧
    (getEntry st.socketToStream c = some "" → (disconnect st c).1 = st) := by
  refine ⟨rfl, ?_, ?_, ?_⟩
  · intro x r hx
    rw [join_socketToStream, getEntry_setEntry]
    by_cases hxc : x = c0
    · exact ⟨s0, by rw [if_pos hxc]⟩
    · exact ⟨r, by rw [if_neg hxc]; exact hx⟩
  · intro a hprev ha
    have hd : (disconnect st c).1 = ⟨delEntry st.socketToStream c,
        updateValue st.agentViewers a (fun vs => setDel vs c)⟩ := by
      simp [disconnect, hprev, ha]
    rw [hd]
    dsimp only
    rw [getEntry_delEntry, if_pos rfl]
  · intro hprev
    simp [disconnect, hprev]

/-- C9 witness: concrete instances. -/
theorem leave_socketToStream_frame_witness :
    ((leave (run [Op.join "c" "A"]) "c" "A").1).socketToStream
        = (run [Op.join "c" "A"]).socketToStream ∧
    (∃ r', getEntry ((join (run [Op.join "c" "A"]) "d" "B").1).socketToStream "c"
        = some r') ∧
    getEntry ((disconnect (run [Op.join "c" "A"]) "c").1).socketToStream "c" = none := by
  have h := leave_socketToStream_frame (run [Op.join "c" "A"]) "c" "A" "d" "B"
  exact ⟨h.1, h.2.1 "c" "A" (by decide), h.2.2.1 "A" (by decide) (by decide)⟩

/-! ### Claim C10 -/

/-- C10: `join` and `disconnect` never remove a stream's entry from
`agentViewers` (only `leave` does); the 5-second interval emits a
per-stream viewer-count event for every tracked entry, so a stream
emptied by `join` or `disconnect` keeps broadcasting count 0 — shown
concretely for a stream emptied by a `join` that moved its only viewer
away. -/
theorem only_leave_removes_entries (st : Presence) (c s s' : String) :
    ((getEntry st.agentViewers s').isSome →
      (getEntry ((join st c s).1).agentViewers s').isSome) ∧
    ((getEntry st.agentViewers s').isSome →
      (getEntry ((disconnect st c).1).agentViewers s').isSome) ∧
    (∀ p ∈ st.agentViewers,
      (⟨p.1 ++ "_viewer_count", .viewerCount p.2.length⟩ : Event) ∈ countTick st) ∧
    getEntry (run [Op.join "c" "A", Op.join "c" "B"]).agentViewers "A" = some [] ∧
    (⟨"A_viewer_count", .viewerCount 0⟩ : Event) ∈
      countTick (run [Op.join "c" "A", Op.join "c" "B"]) := by
  have hkeep : ∀ (av1 : List (String × List String)), (getEntry av1 s').isSome →
      (getEntry (updateValue
        (if (getEntry av1 s).isSome then av1 else setEntry av1 s []) s
        (fun vs => setAdd vs c)) s').isSome := by
    intro av1 h1
    rw [getEntry_updateValue]
    by_cases hss : s' = s
    · subst hss
      rw [if_pos rfl]
      by_cases hin : (getEntry av1 s').isSome
      · rw [if_pos hin]
        simpa using hin
      · rw [if_neg hin, getEntry_setEntry, if_pos rfl]
        simp
    · rw [if_neg hss]
      by_cases hin : (getEntry av1 s).isSome
      · rw [if_pos hin]
        exact h1
      · rw [if_neg hin, getEntry_setEntry, if_neg hss]
        exact h1
  refine ⟨?_, ?_, ?_, by decide, by decide⟩
  · intro hsome
    cases hprev : getEntry st.socketToStream c with
    | none =>
        rw [join_fst_eq st c s st.agentViewers (by rw [hprev])]
        exact hkeep st.agentViewers hsome
    | some pv =>
        by_cases hpv : pv = ""
        · rw [join_fst_eq st c s st.agentViewers (by simp [hprev, hpv])]
          exact hkeep st.agentViewers hsome
        · rw [join_fst_eq st c s (updateValue st.agentViewers pv (fun vs => setDel vs c))
            (by simp [hprev, hpv])]
          refine hkeep _ ?_
          rw [getEntry_updateValue]
          by_cases hsp : s' = pv
          · rw [if_pos hsp]
            simpa [hsp] using hsome
          · rw [if_neg hsp]
            exact hsome
  · intro hsome
    cases hprev : getEntry st.socketToStream c with
    | none =>
        have hd : (disconnect st c).1 = st := by simp [disconnect, hprev]
        rw [hd]
        exact hsome
    | some a =>
        by_cases ha : a = ""
        · have hd : (disconnect st c).1 = st := by simp [disconnect, hprev, ha]
          rw [hd]
          exact hsome
        · have hd : (disconnect st c).1 = ⟨delEntry st.socketToStream c,
              updateValue st.agentViewers a (fun vs => setDel vs c)⟩ := by
            simp [disconnect, hprev, ha]
          rw [hd]
          dsimp only
          rw [getEntry_updateValue]
          by_cases hsa : s' = a
          · rw [if_pos hsa]
            simpa [hsa] using hsome
          · rw [if_neg hsa]
            exact hsome
  · intro p hp
    exact List.mem_map.mpr ⟨p, hp, rfl⟩

/-- C10 witness: a tracked stream survives a `join` that moves its only
viewer elsewhere. -/
theorem only_leave_removes_entries_witness :
    (getEntry ((join (run [Op.join "c" "A"]) "c" "B").1).agentViewers "A").isSome = true :=
  (only_leave_removes_entries (run [Op.join "c" "A"]) "c" "B" "A").1 (by decide)

/-! ### Claim C4 -/

/-- C4 (counterexample): a `leave` that removes the last viewer of a
stream (a membership change) publishes only the per-stream
`A_viewer_count` event; no aggregate `stream_counts` snapshot event is
emitted, contrary to the claim. -/
theorem emit_after_leave_counterexample :
    (leave (run [Op.join "c" "A"]) "c" "A").2
        = [⟨"A_viewer_count", .viewerCount 0⟩] ∧
    "A_viewer_count" ≠ "stream_counts" ∧
    viewerCount (run [Op.join "c" "A"]) "A" = 1 ∧
    viewerCount (leave (run [Op.join "c" "A"]) "c" "A").1 "A" = 0 := by
  refine ⟨?_, ?_, ?_, ?_⟩ <;> decide

/-- C4 (amended): `join` always publishes exactly one aggregate
`stream_counts` event carrying the full `allCounts()` snapshot of the
updated registry (even when membership did not change); `disconnect`
publishes it exactly when the connection is tracked with a truthy
(non-empty) stream id — its `if (agentId)` guard publishes nothing for
an untracked connection or one mapped to the falsy empty string;
`leave` publishes only the per-stream viewer-count event with the new
count, never the aggregate. -/
theorem aggregate_emit_on_join_and_disconnect (st : Presence) (c s : String) :
    (join st c s).2 = [streamCountsEv (join st c s).1] ∧
    (∀ a, getEntry st.socketToStream c = some a → a ≠ "" →
      (disconnect st c).2 = [streamCountsEv (disconnect st c).1]) ∧
    (getEntry st.socketToStream c = none → (disconnect st c).2 = []) ∧
    (getEntry st.socketToStream c = some "" → (disconnect st c).2 = []) ∧
    (leave st c s).2
        = [⟨s ++ "_viewer_count", .viewerCount (viewerCount ((leave st c s).1) s)⟩] := by
  refine ⟨rfl, ?_, ?_, ?_, ?_⟩
  · intro a hprev ha
    simp [disconnect, hprev, ha]
  · intro hnone
    simp [disconnect, hnone]
  · intro hprev
    simp [disconnect, hprev]
  · have h2 : (leave st c s).2 = [⟨s ++ "_viewer_count", .viewerCount
        (match getEntry (updateValue st.agentViewers s (fun vs => setDel vs c)) s with
          | some vs => vs.length
          | none => 0)⟩] := rfl
    rw [h2]
    have hv : viewerCount ((leave st c s).1) s =
        (match getEntry (updateValue st.agentViewers s (fun vs => setDel vs c)) s with
          | some vs => vs.length
          | none => 0) := by
      rw [leave_fst_eq]
      by_cases hM :
          (match getEntry (updateValue st.agentViewers s (fun vs => setDel vs c)) s with
            | some vs => vs.length
            | none => 0) = 0
      · rw [if_pos hM]
        simp only [viewerCount]
        rw [getEntry_delEntry, if_pos rfl]
        exact hM.symm
      · simp only [if_neg hM]
        rfl
    rw [hv]

/-- C4 witness: concrete instances of the emission rules. -/
theorem aggregate_emit_on_join_and_disconnect_witness :
    (join Presence.init "c" "A").2 = [streamCountsEv (join Presence.init "c" "A").1] ∧
    (disconnect (run [Op.join "c" "A"]) "c").2
        = [streamCountsEv (disconnect (run [Op.join "c" "A"]) "c").1] ∧
    (disconnect Presence.init "c").2 = [] ∧
    (disconnect (run [Op.join "c" ""]) "c").2 = [] := by
  refine ⟨(aggregate_emit_on_join_and_disconnect Presence.init "c" "A").1,
    (aggregate_emit_on_join_and_disconnect (run [Op.join "c" "A"]) "c" "A").2.1 "A"
      (by decide) (by decide),
    (aggregate_emit_on_join_and_disconnect Presence.init "c" "A").2.2.1 (by decide),
    (aggregate_emit_on_join_and_disconnect (run [Op.join "c" ""]) "c" "A").2.2.2.1
      (by decide)⟩

/-! ### Claim C6 -/

/-- C6 (counterexample): at `s1 = ""` the second join's truthiness
guard (`if (previousStream)` is false for the empty string) skips the
removal from the previous stream's set, so `viewerCount("")` does not
decrease and the connection stays in `""`'s set. -/
theorem join_single_subscription_counterexample :
    viewerCount ((join ((join Presence.init "c" "").1) "c" "X").1) ""
        = viewerCount ((join Presence.init "c" "").1) "" ∧
    viewerCount ((join Presence.init "c" "").1) "" = 1 ∧
    getEntry ((join ((join Presence.init "c" "").1) "c" "X").1).agentViewers ""
        = some ["c"] ∧
    ("" : String) ≠ "X" := by
  refine ⟨?_, ?_, ?_, ?_⟩ <;> decide

/-- C6 (amended): from any reachable registry state, `join(c, s1)`
followed by `join(c, s2)` with `s1 ≠ s2` and both stream ids non-empty
decrements `viewerCount(s1)` by exactly 1, increments `viewerCount(s2)`
by exactly 1, and removes `c` from `s1`'s connection set.  (The empty
string is falsy: the handlers' truthiness guards never remove a socket
from the empty-string stream's set, so the property fails there.) -/
theorem join_single_subscription (st : Presence) (c s1 s2 : String)
    (hwf : Wf st) (hne : s1 ≠ s2) (hs1 : s1 ≠ "") (hs2 : s2 ≠ "") :
    viewerCount ((join ((join st c s1).1) c s2).1) s1
        = viewerCount ((join st c s1).1) s1 - 1 ∧
    1 ≤ viewerCount ((join st c s1).1) s1 ∧
    viewerCount ((join ((join st c s1).1) c s2).1) s2
        = viewerCount ((join st c s1).1) s2 + 1 ∧
    ∀ vs, getEntry ((join ((join st c s1).1) c s2).1).agentViewers s1 = some vs →
      c ∉ vs := by
  have hwf1 : Wf ((join st c s1).1) := Wf_join st c s1 hwf
  obtain ⟨w, hw⟩ := join_agentViewers_self st c s1
  have hmap1 : getEntry ((join st c s1).1).socketToStream c = some s1 := by
    rw [join_socketToStream, getEntry_setEntry, if_pos rfl]
  have hne21 : ¬(s2 = s1) := fun e => hne e.symm
  have hndw : (setAdd w c).Nodup := hwf1.2.1 _ (getEntry_mem hw)
  have hcw : c ∈ setAdd w c := self_mem_setAdd w c
  rw [join_fst_eq ((join st c s1).1) c s2
    (updateValue ((join st c s1).1).agentViewers s1 (fun vs => setDel vs c))
    (by simp [hmap1, hs1])]
  have ha : getEntry (updateValue ((join st c s1).1).agentViewers s1
      (fun vs => setDel vs c)) s1 = some (setDel (setAdd w c) c) := by
    rw [getEntry_updateValue, if_pos rfl, hw]
    rfl
  have hb : getEntry (updateValue ((join st c s1).1).agentViewers s1
      (fun vs => setDel vs c)) s2 = getEntry ((join st c s1).1).agentViewers s2 := by
    rw [getEntry_updateValue, if_neg hne21]
  have hc' : getEntry
      (if (getEntry (updateValue ((join st c s1).1).agentViewers s1
            (fun vs => setDel vs c)) s2).isSome
        then updateValue ((join st c s1).1).agentViewers s1 (fun vs => setDel vs c)
        else setEntry (updateValue ((join st c s1).1).agentViewers s1
          (fun vs => setDel vs c)) s2 []) s1 = some (setDel (setAdd w c) c) := by
    by_cases hin : (getEntry (updateValue ((join st c s1).1).agentViewers s1
        (fun vs => setDel vs c)) s2).isSome
    · rw [if_pos hin]
      exact ha
    · rw [if_neg hin, getEntry_setEntry, if_neg hne]
      exact ha
  have hd : getEntry (updateValue
      (if (getEntry (updateValue ((join st c s1).1).agentViewers s1
            (fun vs => setDel vs c)) s2).isSome
        then updateValue ((join st c s1).1).agentViewers s1 (fun vs => setDel vs c)
        else setEntry (updateValue ((join st c s1).1).agentViewers s1
          (fun vs => setDel vs c)) s2 []) s2
      (fun vs => setAdd vs c)) s1 = some (setDel (setAdd w c) c) := by
    rw [getEntry_updateValue, if_neg hne]
    exact hc'
  refine ⟨?_, ?_, ?_, ?_⟩
  · simp only [viewerCount]
    rw [hd, hw]
    exact length_setDel_of_mem hndw hcw
  · simp only [viewerCount]
    rw [hw]
    exact List.length_pos.mpr (List.ne_nil_of_mem hcw)
  · cases hv2 : getEntry ((join st c s1).1).agentViewers s2 with
    | some v2 =>
        have hcv2 : c ∉ v2 := by
          intro hcm
          have hm := hwf1.2.2 _ (getEntry_mem hv2) hs2 _ hcm
          rw [hmap1] at hm
          exact hne (Option.some_inj.mp hm)
        have hin : (getEntry (updateValue ((join st c s1).1).agentViewers s1
            (fun vs => setDel vs c)) s2).isSome := by
          rw [hb, hv2]
          rfl
        simp only [viewerCount]
        rw [getEntry_updateValue, if_pos rfl, if_pos hin, hb, hv2]
        exact length_setAdd_of_not_mem hcv2
    | none =>
        have hin : ¬(getEntry (updateValue ((join st c s1).1).agentViewers s1
            (fun vs => setDel vs c)) s2).isSome := by
          rw [hb, hv2]
          simp
        simp only [viewerCount]
        rw [getEntry_updateValue, if_pos rfl, if_neg hin, getEntry_setEntry, if_pos rfl,
          hv2]
        rfl
  · intro vs hvs
    dsimp only at hvs
    rw [hd] at hvs
    rw [Option.some_inj] at hvs
    rw [← hvs]
    intro hcm
    exact (mem_setDel.mp hcm).2 rfl

/-- C6 witness: a concrete stream switch between non-empty ids. -/
theorem join_single_subscription_witness :
    viewerCount ((join ((join (run [Op.join "d" "A"]) "c" "A").1) "c" "B").1) "A"
        = viewerCount ((join (run [Op.join "d" "A"]) "c" "A").1) "A" - 1 ∧
    viewerCount ((join ((join (run [Op.join "d" "A"]) "c" "A").1) "c" "B").1) "B"
        = viewerCount ((join (run [Op.join "d" "A"]) "c" "A").1) "B" + 1 := by
  have h := join_single_subscription (run [Op.join "d" "A"]) "c" "A" "B" (Wf_run _)
    (by decide) (by decide) (by decide)
  exact ⟨h.1, h.2.2.1⟩

/-! ### Claim C5 -/

/-- C5 (counterexample): after three joins to A, two joins to B and all
five disconnects, `allCounts` returns `{A: 0, B: 0}` — not the empty
mapping — because `disconnect` never deletes an emptied entry.  After a
`leave` already removed the connection from its stream's set, a
following `disconnect` leaves that stream's (zero) count unchanged
rather than decrementing it by one.  And after `join c ""; join c A;
disconnect c`, the connection is still in `""`'s set — disconnect does
not purge it from every stream's set, because the truthiness guards
never clean the empty-string stream. -/
theorem disconnect_allCounts_counterexample :
    allCounts (run (fiveJoins ++ fiveDiscs)) = [("A", 0), ("B", 0)] ∧
    allCounts (run (fiveJoins ++ fiveDiscs)) ≠ [] ∧
    getEntry (run [Op.join "c" "A", Op.leave "c" "A"]).socketToStream "c" = some "A" ∧
    viewerCount (run [Op.join "c" "A", Op.leave "c" "A"]) "A" = 0 ∧
    viewerCount (run [Op.join "c" "A", Op.leave "c" "A", Op.disconnect "c"]) "A" = 0 ∧
    getEntry (run [Op.join "c" "", Op.join "c" "A", Op.disconnect "c"]).agentViewers ""
        = some ["c"] ∧
    getEntry (run [Op.join "c" "", Op.join "c" "A", Op.disconnect "c"]).socketToStream "c"
        = none := by
  refine ⟨?_, ?_, ?_, ?_, ?_, ?_, ?_⟩ <;> decide

/-- C5 (amended): after `disconnect(c)` from a reachable state in which
`c` is mapped to a stream `s` with a non-empty id and is a member of
`s`'s set, `c` appears in no stream's connection set other than
possibly the empty-string stream's (which the truthiness guards never
clean), and `viewerCount(s)` is exactly one less than before.  With
three connections joined to A and two to B, `allCounts()` is exactly
`{A: 3, B: 2}`; after all five disconnect it is `{A: 0, B: 0}`
(emptied entries remain tracked with count zero). -/
theorem disconnect_cleanup (st : Presence) (c s : String) (vs : List String)
    (hwf : Wf st) (hs : s ≠ "") (hmap : getEntry st.socketToStream c = some s)
    (hvs : getEntry st.agentViewers s = some vs) (hc : c ∈ vs) :
    (∀ p ∈ ((disconnect st c).1).agentViewers, p.1 ≠ "" → c ∉ p.2) ∧
    viewerCount ((disconnect st c).1) s = viewerCount st s - 1 ∧
    allCounts (run fiveJoins) = [("A", 3), ("B", 2)] ∧
    allCounts (run (fiveJoins ++ fiveDiscs)) = [("A", 0), ("B", 0)] := by
  obtain ⟨w1, w2, w3⟩ := hwf
  have hd : (disconnect st c).1 = ⟨delEntry st.socketToStream c,
      updateValue st.agentViewers s (fun vs => setDel vs c)⟩ := by
    simp [disconnect, hmap, hs]
  refine ⟨?_, ?_, by decide, by decide⟩
  · intro p hp hpne
    rw [hd] at hp
    dsimp only at hp
    rcases mem_updateValue hp with ⟨v, hv, rfl⟩ | ⟨hp', hps⟩
    · intro hcm
      exact (mem_setDel.mp hcm).2 rfl
    · intro hcm
      have hw := w3 _ hp' hpne _ hcm
      rw [hmap] at hw
      exact hps (Option.some_inj.mp hw).symm
  · rw [hd]
    simp only [viewerCount]
    rw [getEntry_updateValue, if_pos rfl, hvs]
    exact length_setDel_of_mem (w2 _ (getEntry_mem hvs)) hc

/-- C5 witness: the decrement at a concrete state. -/
theorem disconnect_cleanup_witness :
    viewerCount ((disconnect (run [Op.join "c" "A"]) "c").1) "A" = 0 := by
  have h := (disconnect_cleanup (run [Op.join "c" "A"]) "c" "A" ["c"] (Wf_run _)
    (by decide) (by decide) (by decide) (by decide)).2.1
  have h1 : viewerCount (run [Op.join "c" "A"]) "A" = 1 := by decide
  rw [h1] at h
  simpa using h

/-! ### Liveness-sweep lemmas -/

theorem demote_agentId (r : StreamRecord) : (demote r).agentId = r.agentId := rfl

theorem demote_demote (r : StreamRecord) : demote (demote r) = demote r := rfl

theorem processStale_allOk (l store : List StreamRecord) :
    processStale (fun _ => true) l store =
      (l.foldl (fun s r => markOffline s r.agentId) store,
       l.flatMap (fun r => [statusEv (demote r), hbEv (demote r)])) := by
  induction l generalizing store with
  | nil => simp [processStale]
  | cons r t ih => simp [processStale, List.flatMap_cons, ih]

theorem foldl_markOffline_eq_map (l store : List StreamRecord) :
    l.foldl (fun s r => markOffline s r.agentId) store =
      store.map
        (fun x => if x.agentId ∈ l.map StreamRecord.agentId then demote x else x) := by
  induction l generalizing store with
  | nil => simp
  | cons r t ih =>
      rw [List.foldl_cons, ih, markOffline, List.map_map]
      refine List.map_congr_left ?_
      intro x _
      by_cases hxr : x.agentId = r.agentId
      · by_cases hxt : x.agentId ∈ t.map StreamRecord.agentId <;>
          simp [Function.comp, hxr, hxt, demote_demote, demote_agentId]
      · by_cases hxt : x.agentId ∈ t.map StreamRecord.agentId <;>
          simp [Function.comp, hxr, hxt]

theorem lookupRecord_map (store : List StreamRecord) (f : StreamRecord → StreamRecord)
    (id : String) (hf : ∀ x, (f x).agentId = x.agentId) :
    lookupRecord (store.map f) id = (lookupRecord store id).map f := by
  induction store with
  | nil => rfl
  | cons r t ih =>
      rw [List.map_cons, lookupRecord, lookupRecord, hf r]
      by_cases h : r.agentId = id
      · rw [if_pos h, if_pos h]
        rfl
      · rw [if_neg h, if_neg h, ih]

theorem lookupRecord_of_mem_nodup {store : List StreamRecord} {r : StreamRecord}
    (hnd : (store.map StreamRecord.agentId).Nodup) (hr : r ∈ store) :
    lookupRecord store r.agentId = some r := by
  induction store with
  | nil => simp at hr
  | cons x t ih =>
      rw [List.map_cons, List.nodup_cons] at hnd
      rcases List.mem_cons.mp hr with h1 | h1
      · subst h1
        rw [lookupRecord, if_pos rfl]
      · have hx : ¬(x.agentId = r.agentId) := by
          intro he
          exact hnd.1 (he ▸ List.mem_map.mpr ⟨r, h1, rfl⟩)
        rw [lookupRecord, if_neg hx]
        exact ih hnd.2 h1

theorem lookupRecord_mem {store : List StreamRecord} {id : String} {r : StreamRecord}
    (h : lookupRecord store id = some r) : r ∈ store ∧ r.agentId = id := by
  induction store with
  | nil => simp [lookupRecord] at h
  | cons x t ih =>
      by_cases hx : x.agentId = id
      · rw [lookupRecord, if_pos hx, Option.some_inj] at h
        subst h
        exact ⟨List.mem_cons_self _ _, hx⟩
      · rw [lookupRecord, if_neg hx] at h
        obtain ⟨h1, h2⟩ := ih h
        exact ⟨List.mem_cons_of_mem _ h1, h2⟩

theorem nodup_id_inj {store : List StreamRecord} {r r' : StreamRecord}
    (hnd : (store.map StreamRecord.agentId).Nodup) (hr : r ∈ store) (hr' : r' ∈ store)
    (h : r.agentId = r'.agentId) : r = r' := by
  have h1 := lookupRecord_of_mem_nodup hnd hr
  have h2 := lookupRecord_of_mem_nodup hnd hr'
  rw [← h] at h2
  rw [h1] at h2
  exact Option.some_inj.mp h2

theorem mem_findStale_ids_iff {store : List StreamRecord} {now : Int} {r : StreamRecord}
    (hnd : (store.map StreamRecord.agentId).Nodup) (hr : r ∈ store) :
    r.agentId ∈ (findStale store now).map StreamRecord.agentId ↔
      (r.isStreaming = true ∧ r.lastHeartbeat < now - 30 * 1000) := by
  constructor
  · intro h
    obtain ⟨r', hr', hid⟩ := List.mem_map.mp h
    have hr'' : r' ∈ store := List.mem_of_mem_filter hr'
    have : r = r' := nodup_id_inj hnd hr hr'' hid.symm
    subst this
    have := List.of_mem_filter hr'
    simpa using this
  · intro h
    refine List.mem_map.mpr ⟨r, ?_, rfl⟩
    rw [findStale, List.mem_filter]
    exact ⟨hr, by simpa using h⟩

theorem sweep_events (store : List StreamRecord) (now : Int) :
    (sweep store now).2 =
      (findStale store now).flatMap
        (fun r => [statusEv (demote r), hbEv (demote r)]) := by
  rw [sweep, sweepTick, if_pos rfl, processStale_allOk]

theorem sweep_lookup (store : List StreamRecord) (now : Int) (r : StreamRecord)
    (hnd : (store.map StreamRecord.agentId).Nodup) (hr : r ∈ store) :
    lookupRecord (sweep store now).1 r.agentId =
      some (if r.isStreaming = true ∧ r.lastHeartbeat < now - 30 * 1000
        then demote r else r) := by
  rw [sweep, sweepTick, if_pos rfl, processStale_allOk]
  dsimp only
  rw [foldl_markOffline_eq_map,
    lookupRecord_map store _ r.agentId (by
      intro x
      by_cases hx : x.agentId ∈ (findStale store now).map StreamRecord.agentId <;>
        simp [hx, demote_agentId]),
    lookupRecord_of_mem_nodup hnd hr]
  by_cases hc : r.isStreaming = true ∧ r.lastHeartbeat < now - 30 * 1000
  · rw [if_pos hc]
    have hm : r.agentId ∈ (findStale store now).map StreamRecord.agentId :=
      (mem_findStale_ids_iff hnd hr).mpr hc
    rw [Option.map_some', if_pos hm]
  · rw [if_neg hc]
    have hm : r.agentId ∉ (findStale store now).map StreamRecord.agentId := by
      intro hm
      exact hc ((mem_findStale_ids_iff hnd hr).mp hm)
    rw [Option.map_some', if_neg hm]

theorem countP_flatMap {α β : Type} (l : List α) (f : α → List β) (p : β → Bool) :
    (l.flatMap f).countP p = (l.map (fun a => (f a).countP p)).sum := by
  induction l with
  | nil => rfl
  | cons a t ih => rw [List.flatMap_cons, List.countP_append, List.map_cons,
      List.sum_cons, ih]

theorem string_append_right_cancel {a b : String} (c : String) (h : a ++ c = b ++ c) :
    a = b := by
  obtain ⟨da⟩ := a
  obtain ⟨db⟩ := b
  obtain ⟨dc⟩ := c
  have hd : da ++ dc = db ++ dc := by
    have := congrArg String.data h
    simpa [String.data_append] using this
  rw [List.append_cancel_right hd]

theorem hb_name_ne_status (id : String) :
    ¬(id ++ "_heartbeat" = "streaming_status_update") := by
  intro h
  have hsplit : ("streaming_sta" ++ "tus_update" : String) = "streaming_status_update" := by
    decide
  rw [← hsplit] at h
  have hd := congrArg String.data h
  rw [String.data_append, String.data_append] at hd
  have hlen : ("_heartbeat" : String).data.length = ("tus_update" : String).data.length := by
    decide
  have := (List.append_inj' hd hlen).2
  exact absurd (congrArg String.mk this) (by decide)

theorem countP_evs_heartbeat (id : String) (r' : StreamRecord) :
    ([statusEv (demote r'), hbEv (demote r')].countP (isHeartbeatEvFor id))
      = if r'.agentId = id then 1 else 0 := by
  rw [List.countP_cons, List.countP_cons, List.countP_nil]
  have h1 : isHeartbeatEvFor id (statusEv (demote r')) = false := by
    simp only [isHeartbeatEvFor, statusEv, decide_eq_false_iff_not]
    intro he
    exact hb_name_ne_status id he.symm
  have h2 : isHeartbeatEvFor id (hbEv (demote r')) = decide (r'.agentId = id) := by
    simp only [isHeartbeatEvFor, hbEv, demote_agentId, decide_eq_decide]
    constructor
    · intro he
      exact string_append_right_cancel _ he
    · intro he
      rw [he]
  rw [h1, h2]
  by_cases he : r'.agentId = id
  · simp [he]
  · simp [he]

theorem countP_evs_status (id : String) (r' : StreamRecord) :
    ([statusEv (demote r'), hbEv (demote r')].countP (isStatusEvFor id))
      = if r'.agentId = id then 1 else 0 := by
  rw [List.countP_cons, List.countP_cons, List.countP_nil]
  have h1 : isStatusEvFor id (statusEv (demote r')) = decide (r'.agentId = id) := by
    simp [isStatusEvFor, statusEv, demote_agentId]
  have h2 : isStatusEvFor id (hbEv (demote r')) = false := by
    simp [isStatusEvFor, hbEv]
  rw [h1, h2]
  by_cases he : r'.agentId = id
  · simp [he]
  · simp [he]

theorem sum_map_ite_ids (id : String) (l : List StreamRecord)
    (hnd : (l.map StreamRecord.agentId).Nodup) :
    (l.map (fun r' => if r'.agentId = id then (1 : Nat) else 0)).sum
      = if id ∈ l.map StreamRecord.agentId then 1 else 0 := by
  induction l with
  | nil => simp
  | cons r t ih =>
      rw [List.map_cons, List.nodup_cons] at hnd
      rw [List.map_cons, List.sum_cons, List.map_cons]
      by_cases hr : r.agentId = id
      · rw [if_pos hr, ih hnd.2, if_neg (hr ▸ hnd.1),
          if_pos (List.mem_cons.mpr (Or.inl hr.symm))]
      · rw [if_neg hr, ih hnd.2]
        have hiff : (id ∈ r.agentId :: t.map StreamRecord.agentId)
            ↔ (id ∈ t.map StreamRecord.agentId) := by
          rw [List.mem_cons]
          constructor
          · rintro (h | h)
            · exact absurd h.symm hr
            · exact h
          · exact Or.inr
        by_cases hm : id ∈ t.map StreamRecord.agentId
        · rw [if_pos hm, if_pos (hiff.mpr hm)]
        · rw [if_neg hm, if_neg (fun hh => hm (hiff.mp hh))]

theorem stale_ids_nodup {store : List StreamRecord} (now : Int)
    (hnd : (store.map StreamRecord.agentId).Nodup) :
    ((findStale store now).map StreamRecord.agentId).Nodup := by
  have hsub : List.Sublist (findStale store now) store := List.filter_sublist store
  exact List.Sublist.nodup (hsub.map StreamRecord.agentId) hnd

theorem sweep_countP_heartbeat (store : List StreamRecord) (now : Int) (r : StreamRecord)
    (hnd : (store.map StreamRecord.agentId).Nodup) (hr : r ∈ store) :
    (sweep store now).2.countP (isHeartbeatEvFor r.agentId)
      = if r.isStreaming = true ∧ r.lastHeartbeat < now - 30 * 1000 then 1 else 0 := by
  rw [sweep_events, countP_flatMap,
    List.map_congr_left (fun r' _ => countP_evs_heartbeat r.agentId r'),
    sum_map_ite_ids r.agentId (findStale store now) (stale_ids_nodup now hnd)]
  by_cases hc : r.isStreaming = true ∧ r.lastHeartbeat < now - 30 * 1000
  · rw [if_pos hc, if_pos ((mem_findStale_ids_iff hnd hr).mpr hc)]
  · rw [if_neg hc, if_neg (fun hm => hc ((mem_findStale_ids_iff hnd hr).mp hm))]

theorem sweep_countP_status (store : List StreamRecord) (now : Int) (r : StreamRecord)
    (hnd : (store.map StreamRecord.agentId).Nodup) (hr : r ∈ store) :
    (sweep store now).2.countP (isStatusEvFor r.agentId)
      = if r.isStreaming = true ∧ r.lastHeartbeat < now - 30 * 1000 then 1 else 0 := by
  rw [sweep_events, countP_flatMap,
    List.map_congr_left (fun r' _ => countP_evs_status r.agentId r'),
    sum_map_ite_ids r.agentId (findStale store now) (stale_ids_nodup now hnd)]
  by_cases hc : r.isStreaming = true ∧ r.lastHeartbeat < now - 30 * 1000
  · rw [if_pos hc, if_pos ((mem_findStale_ids_iff hnd hr).mpr hc)]
  · rw [if_neg hc, if_neg (fun hm => hc ((mem_findStale_ids_iff hnd hr).mp hm))]

/-! ### Claim C3 -/

/-- C3: one fault-free sweep demotes exactly the records with
`isStreaming = true` and `now - lastHeartbeat` strictly greater than
the 30-second timeout; for each demoted record the store keeps the
demoted document and the sweep publishes the global
`streaming_status_update` and the per-stream heartbeat event exactly
once; a record within the timeout is unchanged and gets zero events. -/
theorem sweep_demotes_exactly_stale (store : List StreamRecord) (now : Int)
    (r : StreamRecord) (hnd : (store.map StreamRecord.agentId).Nodup) (hr : r ∈ store) :
    lookupRecord (sweep store now).1 r.agentId
        = some (if r.isStreaming = true ∧ 30 * 1000 < now - r.lastHeartbeat
          then demote r else r) ∧
    (sweep store now).2.countP (isHeartbeatEvFor r.agentId)
        = (if r.isStreaming = true ∧ 30 * 1000 < now - r.lastHeartbeat then 1 else 0) ∧
    (sweep store now).2.countP (isStatusEvFor r.agentId)
        = (if r.isStreaming = true ∧ 30 * 1000 < now - r.lastHeartbeat then 1 else 0) := by
  have hiff : (r.isStreaming = true ∧ 30 * 1000 < now - r.lastHeartbeat)
      ↔ (r.isStreaming = true ∧ r.lastHeartbeat < now - 30 * 1000) := by
    constructor <;> rintro ⟨h1, h2⟩ <;> exact ⟨h1, by omega⟩
  by_cases hc : r.isStreaming = true ∧ 30 * 1000 < now - r.lastHeartbeat
  · refine ⟨?_, ?_, ?_⟩
    · rw [sweep_lookup store now r hnd hr, if_pos (hiff.mp hc), if_pos hc]
    · rw [sweep_countP_heartbeat store now r hnd hr, if_pos (hiff.mp hc), if_pos hc]
    · rw [sweep_countP_status store now r hnd hr, if_pos (hiff.mp hc), if_pos hc]
  · refine ⟨?_, ?_, ?_⟩
    · rw [sweep_lookup store now r hnd hr, if_neg (fun h => hc (hiff.mpr h)), if_neg hc]
    · rw [sweep_countP_heartbeat store now r hnd hr, if_neg (fun h => hc (hiff.mpr h)),
        if_neg hc]
    · rw [sweep_countP_status store now r hnd hr, if_neg (fun h => hc (hiff.mpr h)),
        if_neg hc]

/-- C3 witness: a record 31 s stale is demoted with one status and one
heartbeat event; a record 10 s old is untouched with zero events. -/
theorem sweep_demotes_exactly_stale_witness :
    lookupRecord (sweep [⟨"a", true, 69000⟩, ⟨"b", true, 90000⟩] 100000).1 "a"
        = some ⟨"a", false, 69000⟩ ∧
    (sweep [⟨"a", true, 69000⟩, ⟨"b", true, 90000⟩] 100000).2.countP
        (isHeartbeatEvFor "a") = 1 ∧
    (sweep [⟨"a", true, 69000⟩, ⟨"b", true, 90000⟩] 100000).2.countP
        (isStatusEvFor "a") = 1 ∧
    lookupRecord (sweep [⟨"a", true, 69000⟩, ⟨"b", true, 90000⟩] 100000).1 "b"
        = some ⟨"b", true, 90000⟩ ∧
    (sweep [⟨"a", true, 69000⟩, ⟨"b", true, 90000⟩] 100000).2.countP
        (isHeartbeatEvFor "b") = 0 ∧
    (sweep [⟨"a", true, 69000⟩, ⟨"b", true, 90000⟩] 100000).2.countP
        (isStatusEvFor "b") = 0 := by
  have ha := sweep_demotes_exactly_stale [⟨"a", true, 69000⟩, ⟨"b", true, 90000⟩] 100000
    ⟨"a", true, 69000⟩ (by decide) (by decide)
  have hbq := sweep_demotes_exactly_stale [⟨"a", true, 69000⟩, ⟨"b", true, 90000⟩] 100000
    ⟨"b", true, 90000⟩ (by decide) (by decide)
  exact ⟨ha.1.trans (by decide), ha.2.1.trans (by decide), ha.2.2.trans (by decide),
    hbq.1.trans (by decide), hbq.2.1.trans (by decide), hbq.2.2.trans (by decide)⟩

/-! ### Claim C1 -/

/-- C1 (counterexample): a heartbeat that raises `lastHeartbeat` to
`now` between the sweep's query and its save does not make the update
fail — the unconditional `agent.save()` still persists
`isStreaming = false`, so the record does not remain live. -/
theorem conditional_update_counterexample :
    (sweepRace [⟨"a", true, 69000⟩] 100000 [("a", 100000)]).1
        = [⟨"a", false, 100000⟩] ∧
    (100000 : Int) ≠ 69000 := by
  refine ⟨?_, ?_⟩ <;> decide

/-- C1 (amended): the demotion write is an unconditional overwrite:
every record read as stale by the query is persisted with
`isStreaming = false`, whatever heartbeats landed between the query and
the save — a concurrent fresher heartbeat is clobbered. -/
theorem sweep_save_unconditional (store : List StreamRecord) (now : Int)
    (hb : List (String × Int)) (r : StreamRecord)
    (hnd : (store.map StreamRecord.agentId).Nodup) (hr : r ∈ store)
    (hs : r.isStreaming = true) (hst : 30 * 1000 < now - r.lastHeartbeat) :
    ∃ r', lookupRecord (sweepRace store now hb).1 r.agentId = some r'
      ∧ r'.isStreaming = false := by
  rw [sweepRace, processStale_allOk]
  dsimp only
  rw [foldl_markOffline_eq_map, applyHeartbeats, List.map_map]
  have hh : ∀ x : StreamRecord, ((match hb.lookup x.agentId with
      | some t => { x with lastHeartbeat := t, isStreaming := true }
      | none => x) : StreamRecord).agentId = x.agentId := by
    intro x
    cases hb.lookup x.agentId <;> rfl
  have hpres : ∀ x : StreamRecord,
      (((fun x => if x.agentId ∈ (findStale store now).map StreamRecord.agentId
            then demote x else x) ∘
        (fun x => match hb.lookup x.agentId with
          | some t => { x with lastHeartbeat := t, isStreaming := true }
          | none => x)) x).agentId = x.agentId := by
    intro x
    dsimp only [Function.comp]
    by_cases hx : ((match hb.lookup x.agentId with
        | some t => { x with lastHeartbeat := t, isStreaming := true }
        | none => x) : StreamRecord).agentId ∈
          (findStale store now).map StreamRecord.agentId
    · rw [if_pos hx, demote_agentId]
      exact hh x
    · rw [if_neg hx]
      exact hh x
  rw [lookupRecord_map store _ r.agentId hpres, lookupRecord_of_mem_nodup hnd hr,
    Option.map_some']
  refine ⟨_, rfl, ?_⟩
  dsimp only [Function.comp]
  have hm : ((match hb.lookup r.agentId with
      | some t => { r with lastHeartbeat := t, isStreaming := true }
      | none => r) : StreamRecord).agentId ∈
        (findStale store now).map StreamRecord.agentId := by
    rw [hh r]
    exact (mem_findStale_ids_iff hnd hr).mpr ⟨hs, by omega⟩
  rw [if_pos hm]
  rfl

/-- C1 witness: the clobbered record of the counterexample run. -/
theorem sweep_save_unconditional_witness :
    ∃ r', lookupRecord (sweepRace [⟨"a", true, 69000⟩] 100000 [("a", 100000)]).1 "a"
        = some r' ∧ r'.isStreaming = false :=
  sweep_save_unconditional [⟨"a", true, 69000⟩] 100000 [("a", 100000)]
    ⟨"a", true, 69000⟩ (by decide) (by decide) rfl (by decide)

/-! ### Fault-injection lemmas for the sweep -/

theorem lookupRecord_markOffline_ne {store : List StreamRecord} {i id : String}
    (h : ¬(i = id)) :
    lookupRecord (markOffline store i) id = lookupRecord store id := by
  rw [markOffline, lookupRecord_map store _ id (by
    intro x
    by_cases hx : x.agentId = i <;> simp [hx, demote_agentId])]
  cases hl : lookupRecord store id with
  | none => rfl
  | some x0 =>
      have hx0 : x0.agentId = id := (lookupRecord_mem hl).2
      rw [Option.map_some', if_neg (fun e => h (e.symm.trans hx0))]

theorem processStale_lookup_saveFail (ok : String → Bool) (l : List StreamRecord)
    (store : List StreamRecord) (id : String) (hok : ok id = false) :
    lookupRecord (processStale ok l store).1 id = lookupRecord store id := by
  induction l generalizing store with
  | nil => rfl
  | cons r t ih =>
      by_cases hr : ok r.agentId
      · have hne : ¬(r.agentId = id) := by
          intro e
          rw [e, hok] at hr
          exact Bool.noConfusion hr
        simp only [processStale, if_pos hr]
        rw [ih (markOffline store r.agentId), lookupRecord_markOffline_ne hne]
      · simp only [processStale, if_neg hr]

theorem processStale_lookup_or (ok : String → Bool) (l : List StreamRecord)
    (store : List StreamRecord) (id : String) :
    lookupRecord (processStale ok l store).1 id = lookupRecord store id ∨
    lookupRecord (processStale ok l store).1 id = (lookupRecord store id).map demote := by
  induction l generalizing store with
  | nil => exact Or.inl rfl
  | cons r t ih =>
      by_cases hr : ok r.agentId
      · simp only [processStale, if_pos hr]
        have hmo : lookupRecord (markOffline store r.agentId) id
            = lookupRecord store id ∨
          lookupRecord (markOffline store r.agentId) id
            = (lookupRecord store id).map demote := by
          by_cases hri : r.agentId = id
          · right
            rw [markOffline, lookupRecord_map store _ id (by
              intro x
              by_cases hx : x.agentId = r.agentId <;> simp [hx, demote_agentId])]
            cases hl : lookupRecord store id with
            | none => rfl
            | some x0 =>
                have hx0 : x0.agentId = r.agentId := (lookupRecord_mem hl).2.trans hri.symm
                rw [Option.map_some', Option.map_some', if_pos hx0]
          · left
            exact lookupRecord_markOffline_ne hri
        rcases ih (markOffline store r.agentId) with h | h <;> rcases hmo with h2 | h2
        · exact Or.inl (h.trans h2)
        · exact Or.inr (h.trans h2)
        · exact Or.inr (by rw [h, h2])
        · refine Or.inr ?_
          rw [h, h2]
          cases lookupRecord store id <;> simp [demote_demote]
      · exact Or.inl (by simp only [processStale, if_neg hr])

theorem markOffline_ids (store : List StreamRecord) (i : String) :
    (markOffline store i).map StreamRecord.agentId = store.map StreamRecord.agentId := by
  rw [markOffline, List.map_map]
  refine List.map_congr_left ?_
  intro x _
  by_cases hx : x.agentId = i <;> simp [Function.comp, hx, demote_agentId]

theorem processStale_ids (ok : String → Bool) (l store : List StreamRecord) :
    ((processStale ok l store).1).map StreamRecord.agentId
      = store.map StreamRecord.agentId := by
  induction l generalizing store with
  | nil => rfl
  | cons r t ih =>
      by_cases hr : ok r.agentId
      · simp only [processStale, if_pos hr]
        rw [ih, markOffline_ids]
      · simp only [processStale, if_neg hr]

/-! ### Claim C8 -/

/-- C8: a throwing store query makes the whole tick a no-op (caught at
the sweep boundary; later ticks are unaffected); a record whose save
throws is left unchanged by the tick (no corruption); and whatever a
partially failed tick missed, the next fault-free tick demotes — there
is no other retry mechanism. -/
theorem sweep_error_isolated (saveOk : String → Bool) (store : List StreamRecord)
    (now : Int) (r : StreamRecord) (rest : List (Bool × (String → Bool) × Int)) :
    runTicks ((false, saveOk, now) :: rest) store = runTicks rest store ∧
    ((store.map StreamRecord.agentId).Nodup → r ∈ store → saveOk r.agentId = false →
      lookupRecord (sweepTick true saveOk store now).1 r.agentId = some r) ∧
    ((store.map StreamRecord.agentId).Nodup → r ∈ store → r.isStreaming = true →
      30 * 1000 < now - r.lastHeartbeat →
      lookupRecord (runTicks [(true, saveOk, now), (true, fun _ => true, now)] store).1
        r.agentId = some (demote r)) := by
  refine ⟨?_, ?_, ?_⟩
  · simp only [runTicks, sweepTick]
    rfl
  · intro hnd hr hok
    rw [sweepTick, if_pos rfl, processStale_lookup_saveFail saveOk _ store r.agentId hok,
      lookupRecord_of_mem_nodup hnd hr]
  · intro hnd hr hs hst
    have hrt : (runTicks [(true, saveOk, now), (true, fun _ => true, now)] store).1
        = (sweep ((sweepTick true saveOk store now).1) now).1 := rfl
    rw [hrt]
    have h1 : lookupRecord (sweepTick true saveOk store now).1 r.agentId = some r ∨
        lookupRecord (sweepTick true saveOk store now).1 r.agentId
          = some (demote r) := by
      rw [sweepTick, if_pos rfl]
      rcases processStale_lookup_or saveOk (findStale store now) store r.agentId
          with h | h
      · left
        rw [h, lookupRecord_of_mem_nodup hnd hr]
      · right
        rw [h, lookupRecord_of_mem_nodup hnd hr]
        rfl
    have hnd1 : (((sweepTick true saveOk store now).1).map StreamRecord.agentId).Nodup := by
      rw [sweepTick, if_pos rfl, processStale_ids]
      exact hnd
    rcases h1 with h1 | h1
    · obtain ⟨hm1, _⟩ := lookupRecord_mem h1
      rw [sweep_lookup _ now r hnd1 hm1, if_pos ⟨hs, by omega⟩]
    · obtain ⟨hm1, _⟩ := lookupRecord_mem h1
      have hlk := sweep_lookup _ now (demote r) hnd1 hm1
      rw [demote_agentId] at hlk
      rw [hlk, if_neg (fun hcc => by
        have hfalse := hcc.1
        rw [show (demote r).isStreaming = false from rfl] at hfalse
        exact Bool.noConfusion hfalse)]

/-- C8 witness: a query-failing tick is a no-op, a save-failing tick
leaves the record untouched, and the following clean tick demotes it. -/
theorem sweep_error_isolated_witness :
    runTicks [((false : Bool), (fun _ => false), (100000 : Int))] [⟨"a", true, 69000⟩]
        = runTicks [] [⟨"a", true, 69000⟩] ∧
    lookupRecord (sweepTick true (fun _ => false) [⟨"a", true, 69000⟩] 100000).1 "a"
        = some ⟨"a", true, 69000⟩ ∧
    lookupRecord (runTicks [(true, fun _ => false, 100000), (true, fun _ => true, 100000)]
        [⟨"a", true, 69000⟩]).1 "a" = some ⟨"a", false, 69000⟩ := by
  have h := sweep_error_isolated (fun _ => false) [⟨"a", true, 69000⟩] 100000
    ⟨"a", true, 69000⟩ []
  exact ⟨h.1, h.2.1 (by decide) (by decide) rfl,
    (h.2.2 (by decide) (by decide) rfl (by decide)).trans (by decide)⟩

/-! ### Claim C7 -/

/-- C7: the periodic viewer-count tick addresses only channels named
`<streamId>_viewer_count` for tracked streams, the leave handler's
event is named `<streamId>_viewer_count`, and every event of a liveness
sweep is either the global `streaming_status_update` or a
`<streamId>_heartbeat` channel event for a demoted stream. -/
theorem event_naming_convention (st : Presence) (c s : String)
    (store : List StreamRecord) (now : Int) :
    (∀ e ∈ countTick st, ∃ s', (getEntry st.agentViewers s').isSome = true ∧
        e.name = s' ++ "_viewer_count") ∧
    (leave st c s).2.map Event.name = [s ++ "_viewer_count"] ∧
    (∀ e ∈ (sweep store now).2,
        e.name = "streaming_status_update" ∨
        ∃ rr, rr ∈ findStale store now ∧ e.name = rr.agentId ++ "_heartbeat") := by
  refine ⟨?_, rfl, ?_⟩
  · intro e he
    obtain ⟨p, hp, hpe⟩ := List.mem_map.mp he
    refine ⟨p.1, ?_, by rw [← hpe]⟩
    have hm : (p.1, p.2) ∈ st.agentViewers := hp
    simpa using mem_getEntry_isSome hm
  · intro e he
    rw [sweep_events] at he
    obtain ⟨rr, hrm, hre⟩ := List.mem_flatMap.mp he
    rcases List.mem_cons.mp hre with h1 | h1
    · left
      rw [h1]
      rfl
    · rcases List.mem_cons.mp h1 with h2 | h2
      · right
        exact ⟨rr, hrm, by rw [h2]; rfl⟩
      · simp at h2

/-- C7 witness: concrete channel names. -/
theorem event_naming_convention_witness :
    (leave (run [Op.join "c" "A"]) "c" "A").2.map Event.name = ["A_viewer_count"] ∧
    ∃ s', (getEntry (run [Op.join "c" "A"]).agentViewers s').isSome = true ∧
      (⟨"A_viewer_count", Payload.viewerCount 1⟩ : Event).name = s' ++ "_viewer_count" := by
  have h := event_naming_convention (run [Op.join "c" "A"]) "c" "A" [] 0
  exact ⟨h.2.1, h.1 ⟨"A_viewer_count", Payload.viewerCount 1⟩ (by decide)⟩

end Aiko
